import Mathlib

/-!
Verification development for the shrtie URL shortener.

The definitions below are shallow embeddings of the program's core:
the identifier codec (Go `encoding/binary` varints composed with
`encoding/base64`), the redis backend (`backend/redis/redis.go` and its
variant with a length limit), the sqlite3 backend, and the ttl
computation of the HTTP save handler (`shrtie.go`).

Machine integers are modelled as `Int`/`Nat` with explicit reductions
modulo `2 ^ 64` where Go's `uint64`/`int64` arithmetic can wrap.
Wall-clock times are Unix timestamps in whole seconds, and ttl values
are whole seconds as well: the only caller of the backends, the HTTP
save handler, always passes a whole number of seconds
(`time.Duration(request.TTL) * time.Second`).
-/

deriving instance DecidableEq for Except

namespace Shrtie

/-! ## Go `encoding/binary` varints -/

/-- One step of Go's `binary.PutUvarint` loop: emit the low 7 bits with a
continuation flag while the value needs more than one byte.  The loop of
the Go function runs at most 10 iterations for any `uint64`; the fuel
argument makes the recursion structural and is instantiated with 10,
which is exact on the whole `uint64` domain. -/
def putUvarintFuel : Nat → Nat → List Nat
  | 0, u => [u]
  | f + 1, u => if u < 128 then [u] else (u % 128 + 128) :: putUvarintFuel f (u / 128)

/-- Go `binary.PutUvarint`: the base-128 little-endian bytes of `u`. -/
def putUvarint (u : Nat) : List Nat :=
  putUvarintFuel 10 u

/-- The loop of Go `binary.Uvarint`: `i` is the byte index, `x` the
accumulator, `s` the current shift.  Returns the decoded value and the
byte count (negative on overflow, 0 on truncated input), exactly as the
Go function does; `uint64` arithmetic is reduced modulo `2 ^ 64`. -/
def uvarintLoop : List Nat → Nat → Nat → Nat → Nat × Int
  | [], _, _, _ => (0, 0)
  | b :: rest, i, x, s =>
    if i = 10 then (0, -(Int.ofNat i + 1))
    else if b < 128 then
      if i = 9 ∧ 1 < b then (0, -(Int.ofNat i + 1))
      else ((x ||| b <<< s) % 2 ^ 64, Int.ofNat i + 1)
    else uvarintLoop rest (i + 1) ((x ||| (b % 128) <<< s) % 2 ^ 64) (s + 7)

/-- Go `binary.Uvarint`. -/
def uvarint (buf : List Nat) : Nat × Int :=
  uvarintLoop buf 0 0 0

/-- Go's conversion `uint64(x)` of an `int64` value: the two's-complement
bit pattern as a natural number. -/
def uint64ofInt (x : Int) : Nat :=
  (x % (2 : Int) ^ 64).toNat

/-- The zigzag map used by Go `binary.PutVarint`:
`ux := uint64(x) << 1; if x < 0 { ux = ^ux }`. -/
def zigzag (x : Int) : Nat :=
  let ux := uint64ofInt x * 2 % 2 ^ 64
  if x < 0 then 2 ^ 64 - 1 - ux else ux

/-- The inverse zigzag map used by Go `binary.Varint`:
`x := int64(ux >> 1); if ux&1 != 0 { x = ^x }`.  For `ux < 2 ^ 64` the
shifted value fits in `int64`, so the conversion is the identity. -/
def unzigzag (u : Nat) : Int :=
  if u % 2 = 1 then -(Int.ofNat (u >>> 1)) - 1 else Int.ofNat (u >>> 1)

/-- Go `binary.PutVarint`: zigzag, then unsigned varint bytes.  Both
backends call it with an 8-byte buffer, which restricts the usable
identifier range to varints of at most 8 bytes. -/
def putVarintBytes (x : Int) : List Nat :=
  putUvarint (zigzag x)

/-- Go `binary.Varint`: unsigned varint decode, then inverse zigzag.
Returns the value and the byte count. -/
def varintPair (buf : List Nat) : Int × Int :=
  (unzigzag (uvarint buf).1, (uvarint buf).2)

/-! ## Go `encoding/base64`, unpadded (`RawStdEncoding` / `RawURLEncoding`) -/

/-- Alphabet of Go `base64.StdEncoding` / `RawStdEncoding`. -/
def stdAlphabet : List Char :=
  "ABCDEFGHIJKLMNOPQRSTUVWXYZabcdefghijklmnopqrstuvwxyz0123456789+/".data

/-- Alphabet of Go `base64.URLEncoding` / `RawURLEncoding`. -/
def urlAlphabet : List Char :=
  "ABCDEFGHIJKLMNOPQRSTUVWXYZabcdefghijklmnopqrstuvwxyz0123456789-_".data

/-- Base64 encoding of a byte list into 6-bit indices, unpadded: groups
of 3 bytes become 4 sextets, a 1- or 2-byte tail becomes 2 or 3 sextets. -/
def b64EncodeIdx : List Nat → List Nat
  | [] => []
  | [b0] => [b0 / 4, b0 % 4 * 16]
  | [b0, b1] => [b0 / 4, b0 % 4 * 16 + b1 / 16, b1 % 16 * 4]
  | b0 :: b1 :: b2 :: rest =>
    b0 / 4 :: (b0 % 4 * 16 + b1 / 16) :: (b1 % 16 * 4 + b2 / 64) :: b2 % 64 ::
      b64EncodeIdx rest

/-- Go `Encoding.EncodeToString` for an unpadded encoding with the given
alphabet. -/
def b64EncodeStr (alpha : List Char) (bs : List Nat) : String :=
  String.mk ((b64EncodeIdx bs).map fun i => alpha.getD i 'A')

/-- The decode map of a Go base64 `Encoding`: position of a character in
the alphabet, `none` for a character outside it (Go's
`CorruptInputError`). -/
def decodeChars (alpha : List Char) : List Char → Option (List Nat)
  | [] => some []
  | c :: cs =>
    match alpha.findIdx? (fun a => a == c), decodeChars alpha cs with
    | some v, some vs => some (v :: vs)
    | _, _ => none

/-- Base64 decoding of 6-bit indices back into bytes, unpadded: a
trailing single sextet is malformed; trailing bits of a partial group
are dropped (Go's non-strict mode). -/
def b64DecodeVals : List Nat → Option (List Nat)
  | [] => some []
  | [_] => none
  | [c0, c1] => some [c0 * 4 + c1 / 16]
  | [c0, c1, c2] => some [c0 * 4 + c1 / 16, c1 % 16 * 16 + c2 / 4]
  | c0 :: c1 :: c2 :: c3 :: rest =>
    (b64DecodeVals rest).map fun bs =>
      (c0 * 4 + c1 / 16) :: (c1 % 16 * 16 + c2 / 4) :: (c2 % 4 * 64 + c3) :: bs

/-- Go `Encoding.DecodeString` for an unpadded encoding with the given
alphabet.  (Go additionally skips CR/LF characters, which cannot occur
in the single-path-segment keys this program decodes.) -/
def b64DecodeStr (alpha : List Char) (s : String) : Option (List Nat) :=
  (decodeChars alpha s.data).bind b64DecodeVals

/-! ## Error values shared by the backends -/

/-- The error values of the backends: `ErrWrongKey`, `ErrTTL`, and the
driver error `redis.Nil` ("key does not exist") that a redis pipeline
surfaces when an `HGET` hits a missing hash or field. -/
inductive StoreErr where
  | wrongKey
  | ttlExceeded
  | redisNil
deriving DecidableEq, Repr

/-! ## The redis backend (`src/backend/redis/redis.go`, `src/unnamed/part_004`)

Records live in redis hashes with fields `url`, `until`, `created`,
`count`; a field is `none` while unset (`Save` never writes `count`,
and a failed `Get` can create a hash holding only `count`).  The
constant `"shrtie/"` namespace marker that redis.go prepends to every
key is dropped: it is applied uniformly on every store access, so keys
here stand for the suffix after it.  The numeric `until`/`created`
values are stored directly instead of their `strconv.FormatInt` decimal
strings, whose parse is exact. -/

/-- One redis hash. -/
structure RHash where
  url : Option String
  untl : Option Int
  count : Option Int
  created : Option Int
deriving DecidableEq, Repr

/-- The redis database: the `meta:count` counter and the keyed hashes. -/
structure RedisState where
  counter : Int
  store : List (String × RHash)
deriving DecidableEq, Repr

/-- Write a hash under a key, replacing any previous hash there. -/
def storeInsert (k : String) (v : RHash) (l : List (String × RHash)) :
    List (String × RHash) :=
  (k, v) :: l.filter fun p => p.1 ≠ k

/-- The regexp `[^0-9A-Za-z_-]` of redis.go: true when the key holds a
character outside the URL-safe set. -/
def escapeMatch (s : String) : Bool :=
  s.data.any fun c =>
    !(('0' ≤ c && c ≤ '9') || ('A' ≤ c && c ≤ 'Z') || ('a' ≤ c && c ≤ 'z') ||
      c == '_' || c == '-')

/-- The expiry test of redis.go `Get`:
`ttlTo != 0 && time.Now().Unix() > ttlTo`. -/
def redisExpired (ttlTo now : Int) : Bool :=
  ttlTo != 0 && ttlTo < now

/-- The key redis.go `Save` derives from a numeric identifier:
`base64.RawStdEncoding.EncodeToString` of the varint bytes.  (The
code's comment claims this is URL-safe, but `RawStdEncoding` is the
`+/` alphabet.) -/
def redisKeyOf (id : Int) : String :=
  b64EncodeStr stdAlphabet (putVarintBytes id)

/-- The atomic `INCR` on `meta:count` that allocates an identifier. -/
def redisIncr (s : RedisState) : Int × RedisState :=
  (s.counter + 1, { s with counter := s.counter + 1 })

/-- redis.go `Save`: allocate via `INCR`, encode the key, write the
`url`/`created`/`until` fields (`until` is the sentinel `0` when
`ttl == 0`, otherwise `now.Add(ttl).Unix()`).  This variant has no
length check.  Returns the key and the new database. -/
def redisSave (value : String) (ttl now : Int) (s : RedisState) :
    String × RedisState :=
  let p := redisIncr s
  let key := redisKeyOf p.1
  let untl : Int := if ttl = 0 then 0 else now + ttl
  (key,
   { p.2 with
     store := storeInsert key
       { url := some value, untl := some untl, count := none, created := some now }
       p.2.store })

/-- The `Save` of the redis variant in `src/unnamed/part_004`: identical
except that it first rejects values longer than `maxLength = 2048`
bytes, returning `""` before any allocation. -/
def redisSaveChecked (value : String) (ttl now : Int) (s : RedisState) :
    String × RedisState :=
  if 2048 < value.utf8ByteSize then ("", s) else redisSave value ttl now s

/-- redis.go `Get`: reject keys matching the escape regexp before any
store access; otherwise run the pipeline `HGET url` / `HGET until` /
`HINCRBY count 1` (the increment executes unconditionally — even when a
`HGET` fails — and creates the hash when it is absent), then report the
pipeline error if any `HGET` missed, then apply the expiry test.
Returns the result together with the database after the pipeline. -/
def redisGet (key : String) (now : Int) (s : RedisState) :
    Except StoreErr String × RedisState :=
  if escapeMatch key then (.error .wrongKey, s)
  else
    let h := ((s.store.lookup key).getD ⟨none, none, none, none⟩)
    let s2 :=
      { s with store := storeInsert key { h with count := some (h.count.getD 0 + 1) } s.store }
    match h.url, h.untl with
    | some u, some untl =>
      if redisExpired untl now then (.error .ttlExceeded, s2) else (.ok u, s2)
    | _, _ => (.error .redisNil, s2)

/-- redis.go `Info`: `HGETALL`, `ErrWrongKey` when the hash is absent
(empty map), then the ttl computation — `until - now` when positive,
`0` when `until == 0`, otherwise `ErrTTL`.  Absent fields parse as `0`
or `""`; the counter is not touched. -/
def redisInfo (key : String) (now : Int) (s : RedisState) :
    Except StoreErr (String × Int × Int × Int) :=
  match s.store.lookup key with
  | none => .error .wrongKey
  | some h =>
    let untl := h.untl.getD 0
    if 0 < untl - now then
      .ok (h.url.getD "", untl - now, h.count.getD 0, h.created.getD 0)
    else if untl = 0 then
      .ok (h.url.getD "", 0, h.count.getD 0, h.created.getD 0)
    else .error .ttlExceeded

/-- The identifiers handed out by `n` consecutive allocations: each
`Save` runs the atomic `INCR` of `redisIncr`, and the backend
serializes those increments, so any concurrent execution of `n` `Save`
calls performs exactly this sequence of counter steps. -/
def saveAllocs : RedisState → Nat → List Int × RedisState
  | s, 0 => ([], s)
  | s, n + 1 =>
    let p := redisIncr s
    let q := saveAllocs p.2 n
    (p.1 :: q.1, q.2)

/-! ## The sqlite3 backend (`src/unnamed/part_005`)

Rows of the `shrtie_url` table, keyed by the `AUTOINCREMENT` primary
key; `counter` is the last identifier handed out (the table starts
empty with counter 0, so the first insert gets id 1). -/

/-- One row of `shrtie_url` (`url`, `until`, `count`, `created`). -/
structure SRow where
  url : String
  untl : Int
  count : Int
  created : Int
deriving DecidableEq, Repr

/-- The sqlite3 database. -/
structure SqliteState where
  counter : Int
  rows : List (Int × SRow)
deriving DecidableEq, Repr

/-- `toInt64` of the sqlite3 backend: `base64.RawURLEncoding`-decode the
key (failure is `ErrWrongKey`), then take the value component of
`binary.Varint`, ignoring its byte count. -/
def toInt64 (s : String) : Except StoreErr Int :=
  match b64DecodeStr urlAlphabet s with
  | none => .error .wrongKey
  | some buf => .ok (varintPair buf).1

/-- The key the sqlite3 `Save` derives from a row id:
`base64.RawURLEncoding.EncodeToString` of the varint bytes. -/
def sqliteKeyOf (id : Int) : String :=
  b64EncodeStr urlAlphabet (putVarintBytes id)

/-- sqlite3 `Save`: reject values longer than `maxLength = 2048` bytes
(returning `""` with nothing inserted), compute `until` (`0` unless
`ttl != 0`, else `now.Add(ttl).Unix()`), insert the row (`count`
defaults to 0), and encode `LastInsertId`. -/
def sqliteSave (value : String) (ttl now : Int) (s : SqliteState) :
    String × SqliteState :=
  if 2048 < value.utf8ByteSize then ("", s)
  else
    let untl : Int := if ttl ≠ 0 then now + ttl else 0
    let id := s.counter + 1
    (sqliteKeyOf id,
     { counter := id, rows := (id, ⟨value, untl, 0, now⟩) :: s.rows })

/-- sqlite3 `Get`: decode the key, select the row — a failed scan
returns `("", nil)`, i.e. success with an empty URL, because the code
discards the error — then fail with `ErrTTL` whenever
`until < time.Now().Unix()` (note: no `until != 0` sentinel guard).
The prepared `incrStmt` is never executed, so the row is untouched. -/
def sqliteGet (key : String) (now : Int) (s : SqliteState) :
    Except StoreErr String :=
  match toInt64 key with
  | .error e => .error e
  | .ok id =>
    match s.rows.lookup id with
    | none => .ok ""
    | some row => if row.untl < now then .error .ttlExceeded else .ok row.url

/-! ## The HTTP save handler (`src/shrtie.go` `SaveHandler`) -/

/-- Reduction of an integer to Go `int64` two's-complement range. -/
def int64wrap (x : Int) : Int :=
  (x + 2 ^ 63) % 2 ^ 64 - 2 ^ 63

/-- The ttl computed by `SaveHandler` before it calls `backend.Save`,
in nanoseconds: first `time.Duration(request.Expires.Unix()-time.Now().Unix()) * time.Second`,
which the very next statement overwrites with
`time.Duration(request.TTL) * time.Second`; a negative result is then
clamped to 0. -/
def saveHandlerTtl (reqTTL expiresUnix nowUnix : Int) : Int :=
  let t1 := int64wrap ((expiresUnix - nowUnix) * 1000000000)
  let t2 := int64wrap (reqTTL * 1000000000)
  if t2 < 0 then 0 else t2

/-- A 2049-byte URL, one byte over the backends' `maxLength`. -/
def longUrl : String :=
  String.mk (List.replicate 2049 'a')

/-! ## Round-trip lemmas for the varint layer -/

/-- Merging fresh high bits into a small accumulator: when `x` fits below
bit `s`, the bitwise or of Go's decode loop is plain addition. -/
lemma lor_shiftLeft_eq_add {x y s : Nat} (hx : x < 2 ^ s) :
    x ||| y <<< s = x + y * 2 ^ s := by
  apply Nat.eq_of_testBit_eq
  intro i
  rw [Nat.testBit_or, Nat.testBit_shiftLeft]
  rcases Nat.lt_or_ge i s with hi | hi
  · have hdec : decide (i ≥ s) = false := by simp; omega
    have hmod : (x + y * 2 ^ s) % 2 ^ s = x := by
      rw [Nat.add_mul_mod_self_right, Nat.mod_eq_of_lt hx]
    have hbit : (x + y * 2 ^ s).testBit i = ((x + y * 2 ^ s) % 2 ^ s).testBit i := by
      rw [Nat.testBit_mod_two_pow]
      simp [hi]
    rw [hbit, hmod, hdec]
    simp
  · have hxb : x.testBit i = false :=
      Nat.testBit_lt_two_pow (lt_of_lt_of_le hx (Nat.pow_le_pow_right (by norm_num) hi))
    have hdiv : (x + y * 2 ^ s) / 2 ^ s = y := by
      rw [Nat.add_mul_div_right _ _ (Nat.two_pow_pos s), Nat.div_eq_of_lt hx,
        Nat.zero_add]
    have hbit : (x + y * 2 ^ s).testBit i = y.testBit (i - s) := by
      calc (x + y * 2 ^ s).testBit i
          = ((x + y * 2 ^ s) >>> s).testBit (i - s) := by
            rw [Nat.testBit_shiftRight]
            congr 1
            omega
        _ = y.testBit (i - s) := by
            rw [Nat.shiftRight_eq_div_pow, hdiv]
    rw [hbit, hxb]
    simp [hi]

/-- Every byte `putUvarintFuel` emits is an actual byte value, as long as
the fuel covers the value. -/
lemma putUvarintFuel_lt_256 :
    ∀ f u, u < 2 ^ (7 * f + 7) → ∀ b ∈ putUvarintFuel f u, b < 256 := by
  intro f
  induction f with
  | zero =>
    intro u hu b hb
    simp [putUvarintFuel] at hb
    omega
  | succ f ih =>
    intro u hu b hb
    rw [putUvarintFuel] at hb
    by_cases h : u < 128
    · simp [h] at hb
      omega
    · simp [h] at hb
      rcases hb with hb | hb
      · omega
      · refine ih (u / 128) ?_ b hb
        have hpow : (2 : ℕ) ^ (7 * (f + 1) + 7) = 2 ^ (7 * f + 7) * 128 := by
          rw [show 7 * (f + 1) + 7 = 7 * f + 7 + 7 by ring, pow_add]
          norm_num
        rw [Nat.div_lt_iff_lt_mul (by norm_num : (0 : ℕ) < 128)]
        omega

/-- The varint of a value below `2 ^ (7 * (k + 1))` takes at most `k + 1`
bytes. -/
lemma putUvarintFuel_length :
    ∀ f k u : Nat, u < 2 ^ (7 * (k + 1)) → (putUvarintFuel f u).length ≤ k + 1 := by
  intro f
  induction f with
  | zero =>
    intro k u _
    simp [putUvarintFuel]
  | succ f ih =>
    intro k u hu
    rw [putUvarintFuel]
    by_cases h : u < 128
    · simp [h]
    · simp only [h, if_false, List.length_cons]
      match k with
      | 0 =>
        exfalso
        have : (2 : ℕ) ^ (7 * 1) = 128 := by norm_num
        omega
      | k + 1 =>
        have hdiv : u / 128 < 2 ^ (7 * (k + 1)) := by
          rw [Nat.div_lt_iff_lt_mul (by norm_num : (0 : ℕ) < 128)]
          have hpow : (2 : ℕ) ^ (7 * (k + 1 + 1)) = 2 ^ (7 * (k + 1)) * 128 := by
            rw [show 7 * (k + 1 + 1) = 7 * (k + 1) + 7 by ring, pow_add]
            norm_num
          omega
        have := ih k (u / 128) hdiv
        omega

/-- Decoding a single final varint byte. -/
lemma uvarintLoop_single (b x s i : Nat) (hb : b < 128) (hi : i ≤ 8)
    (hx : x < 2 ^ s) (hlt : x + b * 2 ^ s < 2 ^ 63) :
    uvarintLoop [b] i x s = (x + b * 2 ^ s, Int.ofNat i + 1) := by
  rw [uvarintLoop, if_neg (by omega), if_pos hb, if_neg (by omega),
    lor_shiftLeft_eq_add hx, Nat.mod_eq_of_lt (by omega)]

/-- Go's `Uvarint` loop inverts `PutUvarint`: starting at byte index `i`
with accumulator `x` holding `s` low bits, reading the varint of `u`
yields `x + u * 2 ^ s`, provided everything stays below `2 ^ 63` and at
most 9 bytes are consumed (so no overflow guard fires). -/
lemma uvarintLoop_putUvarintFuel :
    ∀ f u x s i : Nat, u < 2 ^ (7 * f) →
      i + (putUvarintFuel f u).length ≤ 9 → x < 2 ^ s →
      x + u * 2 ^ s < 2 ^ 63 →
      uvarintLoop (putUvarintFuel f u) i x s =
        (x + u * 2 ^ s, Int.ofNat i + ((putUvarintFuel f u).length : Int)) := by
  intro f
  induction f with
  | zero =>
    intro u x s i hu hlen hx hlt
    have hu0 : u = 0 := by
      have : (2 : ℕ) ^ (7 * 0) = 1 := by norm_num
      omega
    subst hu0
    rw [show putUvarintFuel 0 0 = [0] from rfl] at hlen ⊢
    rw [uvarintLoop_single 0 x s i (by norm_num) (by simp at hlen; omega) hx hlt]
    simp
  | succ f ih =>
    intro u x s i hu hlen hx hlt
    rw [putUvarintFuel] at hlen ⊢
    by_cases h : u < 128
    · rw [if_pos h] at hlen ⊢
      rw [uvarintLoop_single u x s i h (by simp at hlen; omega) hx hlt]
      simp
    · rw [if_neg h] at hlen ⊢
      simp only [List.length_cons] at hlen
      rw [uvarintLoop, if_neg (by omega), if_neg (by omega)]
      have hmod : (u % 128 + 128) % 128 = u % 128 := by omega
      rw [hmod, lor_shiftLeft_eq_add hx]
      have hle : u % 128 * 2 ^ s ≤ u * 2 ^ s :=
        Nat.mul_le_mul_right _ (Nat.mod_le u 128)
      rw [Nat.mod_eq_of_lt (by omega)]
      have hpow : (2 : ℕ) ^ (s + 7) = 2 ^ s * 128 := by
        rw [pow_add]
        norm_num
      have hx2 : x + u % 128 * 2 ^ s < 2 ^ (s + 7) := by
        have hm : u % 128 * 2 ^ s ≤ 127 * 2 ^ s :=
          Nat.mul_le_mul_right _ (by omega)
        rw [hpow]
        have hp : 0 < (2 : ℕ) ^ s := Nat.two_pow_pos s
        omega
      have hkey : x + u % 128 * 2 ^ s + u / 128 * 2 ^ (s + 7) = x + u * 2 ^ s := by
        rw [hpow]
        have hdm := Nat.div_add_mod u 128
        calc x + u % 128 * 2 ^ s + u / 128 * (2 ^ s * 128)
            = x + (128 * (u / 128) + u % 128) * 2 ^ s := by ring
          _ = x + u * 2 ^ s := by rw [hdm]
      have hdivlt : u / 128 < 2 ^ (7 * f) := by
        rw [Nat.div_lt_iff_lt_mul (by norm_num : (0 : ℕ) < 128)]
        have hpow2 : (2 : ℕ) ^ (7 * (f + 1)) = 2 ^ (7 * f) * 128 := by
          rw [show 7 * (f + 1) = 7 * f + 7 by ring, pow_add]
          norm_num
        omega
      rw [ih (u / 128) (x + u % 128 * 2 ^ s) (s + 7) (i + 1) hdivlt
        (by omega) hx2 (by omega)]
      rw [hkey]
      simp only [List.length_cons, Prod.mk.injEq]
      refine ⟨trivial, ?_⟩
      simp only [Int.ofNat_eq_natCast]
      omega

/-- Go's `Uvarint` inverts `PutUvarint` on values below `2 ^ 63`. -/
lemma uvarint_putUvarint (u : Nat) (hu : u < 2 ^ 63) :
    uvarint (putUvarint u) = (u, ((putUvarint u).length : Int)) := by
  have hlen : (putUvarintFuel 10 u).length ≤ 9 := by
    refine putUvarintFuel_length 10 8 u ?_
    have : (2 : ℕ) ^ (7 * 9) = 2 ^ 63 := by norm_num
    omega
  have h := uvarintLoop_putUvarintFuel 10 u 0 0 0
    (lt_trans hu (by norm_num)) (by omega) (by norm_num) (by simpa using hu)
  unfold uvarint putUvarint
  rw [h]
  simp

/-- Zigzag of a non-negative `int64` value is doubling. -/
lemma zigzag_natCast (n : Nat) (h : n < 2 ^ 63) : zigzag (n : Int) = 2 * n := by
  unfold zigzag uint64ofInt
  rw [if_neg (by omega)]
  have hmod : ((n : Int) % (2 : Int) ^ 64) = (n : Int) := by
    rw [Int.emod_eq_of_lt (by positivity) (by push_cast; omega)]
  rw [hmod]
  simp only [Int.toNat_natCast]
  omega

/-- Inverse zigzag of an even value is halving. -/
lemma unzigzag_two_mul (n : Nat) : unzigzag (2 * n) = (n : Int) := by
  unfold unzigzag
  rw [if_neg (by omega)]
  have hsh : (2 * n) >>> 1 = n := by
    rw [Nat.shiftRight_eq_div_pow]
    omega
  rw [hsh]
  simp

/-! ## Round-trip lemmas for the base64 layer -/

/-- The sextets the base64 encoder produces are alphabet indices. -/
lemma b64EncodeIdx_lt_64 :
    ∀ bs : List Nat, (∀ b ∈ bs, b < 256) → ∀ i ∈ b64EncodeIdx bs, i < 64
  | [], _ => by simp [b64EncodeIdx]
  | [b0], h => by
    have h0 := h b0 (by simp)
    intro i hi
    simp only [b64EncodeIdx, List.mem_cons, List.not_mem_nil, or_false] at hi
    rcases hi with rfl | rfl <;> omega
  | [b0, b1], h => by
    have h0 := h b0 (by simp)
    have h1 := h b1 (by simp)
    intro i hi
    simp only [b64EncodeIdx, List.mem_cons, List.not_mem_nil, or_false] at hi
    rcases hi with rfl | rfl | rfl <;> omega
  | b0 :: b1 :: b2 :: rest, h => by
    have h0 := h b0 (by simp)
    have h1 := h b1 (by simp)
    have h2 := h b2 (by simp)
    intro i hi
    simp only [b64EncodeIdx, List.mem_cons] at hi
    rcases hi with rfl | rfl | rfl | rfl | hi
    · omega
    · omega
    · omega
    · omega
    · exact b64EncodeIdx_lt_64 rest (fun b hb => h b (by simp [hb])) i hi

/-- Looking an alphabet character back up yields its index. -/
lemma urlAlphabet_findIdx :
    ∀ i : Fin 64,
      urlAlphabet.findIdx? (fun a => a == urlAlphabet.getD i.val 'A') = some i.val := by
  decide

/-- The decode map inverts the encode map on alphabet indices. -/
lemma decodeChars_encode (idxs : List Nat) (h : ∀ i ∈ idxs, i < 64) :
    decodeChars urlAlphabet (idxs.map fun i => urlAlphabet.getD i 'A') = some idxs := by
  induction idxs with
  | nil => rfl
  | cons a as ih =>
    have ha : a < 64 := h a (by simp)
    have hinv := urlAlphabet_findIdx ⟨a, ha⟩
    simp only [List.map_cons, decodeChars]
    rw [hinv, ih (fun i hi => h i (by simp [hi]))]

/-- Regrouping sextets back into the original bytes. -/
lemma b64DecodeVals_encode :
    ∀ bs : List Nat, (∀ b ∈ bs, b < 256) → b64DecodeVals (b64EncodeIdx bs) = some bs
  | [], _ => rfl
  | [b0], h => by
    have h0 := h b0 (by simp)
    simp only [b64EncodeIdx, b64DecodeVals, Option.some.injEq, List.cons.injEq,
      and_true]
    omega
  | [b0, b1], h => by
    have h0 := h b0 (by simp)
    have h1 := h b1 (by simp)
    simp only [b64EncodeIdx, b64DecodeVals, Option.some.injEq, List.cons.injEq,
      and_true]
    constructor <;> omega
  | b0 :: b1 :: b2 :: rest, h => by
    have h0 := h b0 (by simp)
    have h1 := h b1 (by simp)
    have h2 := h b2 (by simp)
    have ih := b64DecodeVals_encode rest (fun b hb => h b (by simp [hb]))
    simp only [b64EncodeIdx, b64DecodeVals, ih, Option.map_some', Option.some.injEq,
      List.cons.injEq]
    refine ⟨by omega, by omega, by omega, trivial⟩

/-- Unpadded URL-safe base64 decoding inverts encoding on byte lists. -/
lemma b64UrlRoundtrip (bs : List Nat) (h : ∀ b ∈ bs, b < 256) :
    b64DecodeStr urlAlphabet (b64EncodeStr urlAlphabet bs) = some bs := by
  unfold b64DecodeStr b64EncodeStr
  have hdata : (String.mk ((b64EncodeIdx bs).map fun i => urlAlphabet.getD i 'A')).data
      = (b64EncodeIdx bs).map fun i => urlAlphabet.getD i 'A' := rfl
  rw [hdata, decodeChars_encode _ (b64EncodeIdx_lt_64 bs h)]
  exact b64DecodeVals_encode bs h

/-- Full codec round-trip: decoding the key encoded from an identifier in
the supported range returns the identifier. -/
lemma toInt64_sqliteKeyOf (n : Nat) (h : n < 2 ^ 55) :
    toInt64 (sqliteKeyOf (n : Int)) = .ok (n : Int) := by
  have h63 : n < 2 ^ 63 := by omega
  have hz : putVarintBytes (n : Int) = putUvarint (2 * n) := by
    unfold putVarintBytes
    rw [zigzag_natCast n h63]
  have hbytes : ∀ b ∈ putUvarint (2 * n), b < 256 := by
    refine putUvarintFuel_lt_256 10 (2 * n) ?_
    have : (2 : ℕ) ^ 56 ≤ 2 ^ (7 * 10 + 7) := by norm_num
    omega
  unfold toInt64 sqliteKeyOf
  rw [hz, b64UrlRoundtrip _ hbytes]
  show Except.ok (varintPair (putUvarint (2 * n))).1 = Except.ok (n : Int)
  unfold varintPair
  rw [uvarint_putUvarint (2 * n) (by omega)]
  simp [unzigzag_two_mul]

/-- Reading back a hash just written under a key. -/
lemma lookup_storeInsert (k : String) (v : RHash) (l : List (String × RHash)) :
    (storeInsert k v l).lookup k = some v := by
  simp [storeInsert, List.lookup]

/-- The UTF-8 byte length of `n` copies of `'a'` is `n`. -/
lemma utf8ByteSizeGo_replicate (n : Nat) :
    String.utf8ByteSize.go (List.replicate n 'a') = n := by
  induction n with
  | zero => rfl
  | succ n ih =>
    show String.utf8ByteSize.go ('a' :: List.replicate n 'a') = n + 1
    show String.utf8ByteSize.go (List.replicate n 'a') + 'a'.utf8Size = n + 1
    rw [ih, show 'a'.utf8Size = 1 from rfl]

/-- `longUrl` is 2049 bytes long. -/
lemma longUrl_size : longUrl.utf8ByteSize = 2049 :=
  utf8ByteSizeGo_replicate 2049

/-! ## The claims -/

/-- C1: the claim fails on the code.  A redis lookup of an expired record
returns `ErrTTL`, yet the pipelined `HINCRBY` has already run — the
counter of the freshly saved record (no `count` field yet) becomes 1
even though the lookup failed, so a failed Lookup does not leave the
click counter unchanged.  (The sqlite3 `Get` deviates the other way: it
never executes its prepared `incrStmt`, so even successful lookups do
not increment.) -/
theorem redisGet_expired_still_increments :
    (redisGet "Ag" 100 (redisSave "u" (-5) 100 ⟨0, []⟩).2).1 = .error .ttlExceeded ∧
      ((redisGet "Ag" 100 (redisSave "u" (-5) 100 ⟨0, []⟩).2).2.store.lookup "Ag").map
        (fun h => h.count) = some (some 1) := by
  decide

/-- C2: the claim fails on the code.  A sqlite3 record saved with
`ttl = 0` stores the sentinel `until = 0`, but the `Get` expiry check
`until < time.Now().Unix()` has no `until != 0` guard, so the record is
reported expired (`ErrTTL`) at every positive read time instead of
being live forever. -/
theorem sqliteGet_sentinel_reported_expired :
    (sqliteSave "u" 0 0 ⟨0, []⟩).1 = "Ag" ∧
      sqliteGet "Ag" 1 (sqliteSave "u" 0 0 ⟨0, []⟩).2 = .error .ttlExceeded := by
  decide

/-- C3: decoding the key encoded from any identifier in the supported
range (varints of at most 8 bytes — the buffer `Save` passes to
`binary.PutVarint`) returns exactly that identifier; the encoder is a
pure function of the identifier, hence deterministic. -/
theorem decode_encode_id (n : Nat) (h : n < 2 ^ 55) :
    (putVarintBytes (n : Int)).length ≤ 8 ∧
      toInt64 (sqliteKeyOf (n : Int)) = .ok (n : Int) := by
  constructor
  · have hz : putVarintBytes (n : Int) = putUvarint (2 * n) := by
      unfold putVarintBytes
      rw [zigzag_natCast n (by omega)]
    rw [hz]
    refine putUvarintFuel_length 10 7 (2 * n) ?_
    have : (2 : ℕ) ^ (7 * 8) = 2 ^ 56 := by norm_num
    omega
  · exact toInt64_sqliteKeyOf n h

/-- C3, witness: the round-trip at the concrete identifier 1. -/
theorem decode_encode_id_witness :
    1 < 2 ^ 55 ∧
      ((putVarintBytes ((1 : Nat) : Int)).length ≤ 8 ∧
        toInt64 (sqliteKeyOf ((1 : Nat) : Int)) = .ok ((1 : Nat) : Int)) :=
  ⟨by norm_num, decode_encode_id 1 (by norm_num)⟩

/-- C4: the claim fails on the code.  redis.go `Save` encodes keys with
`base64.RawStdEncoding` (despite its own comment calling the result
URL-safe), so identifier 124 — the 124th allocation — yields the key
"+AE", which contains '+'.  (Such a key is then rejected by `Get`'s
escape regexp, making the record unreachable.) -/
theorem redisSave_key_contains_plus :
    (redisSave "http://example.org" 0 0 ⟨123, []⟩).1 = "+AE" ∧
      '+' ∈ "+AE".data := by
  decide

/-- C5: any sequence of `n` identifier allocations through the backend's
atomic counter increment (the serialized `INCR`/`AUTOINCREMENT` each
`Save` begins with) hands out strictly increasing, pairwise distinct
identifiers — exactly the values from `counter + 1` to `counter + n`,
one per call. -/
theorem saveAllocs_distinct_exact_range (s : RedisState) (n : Nat) :
    (saveAllocs s n).1.Pairwise (· < ·) ∧ (saveAllocs s n).1.length = n ∧
      ∀ x : Int, x ∈ (saveAllocs s n).1 ↔
        s.counter + 1 ≤ x ∧ x ≤ s.counter + n := by
  induction n generalizing s with
  | zero =>
    refine ⟨List.Pairwise.nil, rfl, ?_⟩
    intro x
    simp only [saveAllocs, List.not_mem_nil, false_iff, Nat.cast_zero]
    omega
  | succ n ih =>
    obtain ⟨hp, hl, hm⟩ := ih (redisIncr s).2
    simp only [redisIncr] at hp hl hm
    refine ⟨?_, ?_, ?_⟩
    · simp only [saveAllocs, redisIncr]
      exact List.pairwise_cons.mpr
        ⟨fun b hb => by have := (hm b).mp hb; omega, hp⟩
    · simp only [saveAllocs, redisIncr, List.length_cons, hl]
    · intro x
      simp only [saveAllocs, redisIncr, List.mem_cons, hm x]
      push_cast
      omega

/-- C6: the claim fails on the code.  The sqlite3 `Get` of a well-formed
key whose identifier has no row — here "AA", which decodes to
identifier 0, never allocated — returns `("", nil)`: success with an
empty URL instead of an error, because the scan error is discarded by
`return "", nil`.  (The redis `Get` does return the pipeline error.) -/
theorem sqliteGet_absent_reports_success :
    sqliteGet "AA" 0 ⟨0, []⟩ = .ok "" := by
  decide

/-- C7: counterexample to the claim as stated — a backend `Save` with
the negative ttl `-5` at time 100 stores `until = 95` (already in the
past), not the sentinel 0, so the record is immediately expired rather
than immortal. -/
theorem redisSave_negative_ttl_expires :
    ((redisSave "u" (-5) 100 ⟨0, []⟩).2.store.lookup "Ag").map (fun h => h.untl)
        = some (some 95) ∧
      (redisGet "Ag" 96 (redisSave "u" (-5) 100 ⟨0, []⟩).2).1 = .error .ttlExceeded := by
  decide

/-- C7 (amended): a `Save` with ttl = 0 stores the sentinel
`until = 0`, which the redis expiry predicate never classifies as
expired at any read time; and the HTTP save handler clamps its computed
ttl to be non-negative, so the backend never receives a negative ttl
from the request path — only a direct backend call with ttl < 0 stores
the already-past `now + ttl`. -/
theorem save_zero_ttl_never_expires :
    (∀ (v : String) (now : Int) (s : RedisState),
        (redisSave v 0 now s).2.store.lookup (redisSave v 0 now s).1 =
          some ⟨some v, some 0, none, some now⟩) ∧
      (∀ t : Int, redisExpired 0 t = false) ∧
      ∀ reqTTL e now : Int, 0 ≤ saveHandlerTtl reqTTL e now := by
  refine ⟨?_, ?_, ?_⟩
  · intro v now s
    simp only [redisSave, redisIncr, if_pos rfl]
    exact lookup_storeInsert _ _ _
  · intro t
    simp [redisExpired]
  · intro reqTTL e now
    show 0 ≤ if int64wrap (reqTTL * 1000000000) < 0 then 0
      else int64wrap (reqTTL * 1000000000)
    split <;> omega

/-- C8: counterexample to the claim as stated — the `Save` of
`backend/redis/redis.go` has no length check at all: saving a 2049-byte
URL still allocates identifier 1 (the counter moves to 1) and returns
its key. -/
theorem redisSave_oversized_still_allocates :
    2048 < longUrl.utf8ByteSize ∧
      (redisSave longUrl 0 0 ⟨0, []⟩).1 = "Ag" ∧
      (redisSave longUrl 0 0 ⟨0, []⟩).2.counter = 1 := by
  refine ⟨by rw [longUrl_size]; norm_num, by decide, by decide⟩

/-- C8 (amended): in the backend variants that define
`maxLength = 2048` (the redis variant of part_004 and the sqlite3
backend), an oversized URL is rejected before the counter `INCR`: the
call returns the empty key and leaves the database — in particular the
identifier counter — untouched, so the next successful `Save` gets the
identifier it would have gotten anyway. -/
theorem redisSaveChecked_oversized_no_alloc (v : String) (ttl now : Int)
    (s : RedisState) (h : 2048 < v.utf8ByteSize) :
    redisSaveChecked v ttl now s = ("", s) := by
  unfold redisSaveChecked
  rw [if_pos h]

/-- C8, witness: the 2049-byte URL is rejected with no allocation. -/
theorem redisSaveChecked_oversized_no_alloc_witness :
    2048 < longUrl.utf8ByteSize ∧
      redisSaveChecked longUrl 0 0 ⟨0, []⟩ = ("", ⟨0, []⟩) :=
  ⟨by rw [longUrl_size]; norm_num,
    redisSaveChecked_oversized_no_alloc longUrl 0 0 ⟨0, []⟩
      (by rw [longUrl_size]; norm_num)⟩

/-- C9: counterexample to the claim as stated — redis `Info` of the
well-formed but absent key "Ag" returns `ErrWrongKey`, the very error
value `Get` uses for malformed keys (shown alongside), so
invalid-key and not-found are not distinguishable error kinds across
all operations. -/
theorem redisInfo_absent_key_wrongKey :
    redisInfo "Ag" 0 ⟨0, []⟩ = .error .wrongKey ∧
      (redisGet "x!" 0 ⟨0, []⟩).1 = .error .wrongKey := by
  decide

/-- C9 (amended): a redis `Get` whose key matches the escape regexp
`[^0-9A-Za-z_-]` fails with `ErrWrongKey` and leaves the database
untouched (no backend access); but the distinguishability part of the
claim fails, since `Info` reports the same `ErrWrongKey` for well-formed
absent keys. -/
theorem redisGet_invalid_key_no_backend_access (key : String) (now : Int)
    (s : RedisState) (h : escapeMatch key = true) :
    redisGet key now s = (.error .wrongKey, s) := by
  unfold redisGet
  rw [if_pos h]

/-- C9, witness: the malformed key "x+y" is rejected without touching
the store. -/
theorem redisGet_invalid_key_no_backend_access_witness :
    escapeMatch "x+y" = true ∧
      redisGet "x+y" 7 ⟨3, []⟩ = (.error .wrongKey, ⟨3, []⟩) :=
  ⟨by decide, redisGet_invalid_key_no_backend_access "x+y" 7 ⟨3, []⟩ (by decide)⟩

/-- C10: in `SaveHandler`, the ttl derived from the request's `Expires`
field is dead — the assignment from the `TTL` field overwrites it
unconditionally — so two requests differing only in `Expires` hand the
backend the same ttl. -/
theorem saveHandlerTtl_ignores_expires (reqTTL e1 e2 now : Int) :
    saveHandlerTtl reqTTL e1 now = saveHandlerTtl reqTTL e2 now := rfl

end Shrtie
